import Mathlib

/-!
Verification development for the film-grade media transformation pipeline
(Chrome extension content script `imageProcessor.document_start.ts` and its
evolutionary variants).  The definitions below are shallow embeddings of the
TypeScript source: machine bytes become `Nat`, JavaScript float arithmetic on
normalized colors becomes exact rational arithmetic (`Rat`), fallible
operations return `Option`/`Except`, and DOM/async state becomes explicit
record state.
-/

set_option maxHeartbeats 1000000

/-- One RGBA pixel of an `ImageData` buffer.  Channels are the byte values
stored in the `Uint8ClampedArray` (0..255 for real buffers; the type is `Nat`
and byte-validity is stated as a hypothesis where needed). -/
structure Pixel where
  r : Nat
  g : Nat
  b : Nat
  a : Nat
deriving DecidableEq, Repr

/-- A parsed 3D LUT as consumed by `applyCubeLUT`: `size` is the declared grid
size `N`, `data` the flat list of RGB triples (floats in the source, exact
rationals here). -/
structure Lut where
  size : Nat
  data : List (Rat × Rat × Rat)
deriving DecidableEq, Repr

/-- JavaScript array indexing `arr[i]` with an `Int` index: out-of-range or
negative indices yield `undefined`, modelled as `none`. -/
def jsArrayGet {α : Type} (l : List α) (i : Int) : Option α :=
  if i < 0 then none else l.get? i.toNat

/-- JavaScript `Math.round`: round half toward positive infinity. -/
def jsRound (q : Rat) : Int :=
  ⌊q + 1 / 2⌋

/-- Storing an integer-valued number into a `Uint8ClampedArray` slot: clamp to
[0, 255].  (The rounding step of the clamped store is separate, see
`u8ClampedStore`; `applyCubeLUT` always stores integers.) -/
def byteWrite (v : Int) : Nat :=
  (min 255 (max 0 v)).toNat

/-- Storing an arbitrary (possibly fractional) number into a
`Uint8ClampedArray` slot: clamp to [0, 255], then round half to even. -/
def u8ClampedStore (q : Rat) : Nat :=
  let c := min 255 (max 0 q)
  let f := ⌊c⌋
  let frac := c - f
  (if frac < 1 / 2 then f
   else if 1 / 2 < frac then f + 1
   else if f % 2 = 0 then f else f + 1).toNat

/-- Axis coordinate of `applyCubeLUT` (imageProcessor.document_start.ts,
lines 542-544): `Math.min(size - 1, Math.max(0, Math.floor(chan / 255 * (size - 1))))`. -/
def clampAxis (size : Nat) (chan : Nat) : Int :=
  min ((size : Int) - 1) (max 0 ⌊(chan : Rat) / 255 * ((size : Rat) - 1)⌋)

/-- The flattened, safety-clamped LUT index of `applyCubeLUT`
(imageProcessor.document_start.ts, lines 542-548): axis coordinates are
clamped to [0, size-1], flattened as `z + y*size + x*size*size`
(blue fastest, red slowest), then clamped into `[0, data.length - 1]`
via `maxLutIndex`. -/
def clampedLutIndex (lut : Lut) (p : Pixel) : Int :=
  let size := lut.size
  let x := clampAxis size p.r
  let y := clampAxis size p.g
  let z := clampAxis size p.b
  let idx := z + y * (size : Int) + x * (size : Int) * (size : Int)
  min ((lut.data.length : Int) - 1) (max 0 idx)

/-- Per-pixel body of `applyCubeLUT` (imageProcessor.document_start.ts,
lines 533-555).  A lookup of `undefined` followed by `[0]` would throw in
JavaScript, so the result is `Option`. -/
def applyCubeLUTPixel (lut : Lut) (p : Pixel) : Option Pixel :=
  (jsArrayGet lut.data (clampedLutIndex lut p)).map fun e =>
    ⟨byteWrite (jsRound (e.1 * 255)),
     byteWrite (jsRound (e.2.1 * 255)),
     byteWrite (jsRound (e.2.2 * 255)),
     p.a⟩

/-- `applyCubeLUT` (imageProcessor.document_start.ts, lines 525-558) over a
pixel buffer. -/
def applyCubeLUT (lut : Lut) : List Pixel → Option (List Pixel)
  | [] => some []
  | p :: rest =>
      (applyCubeLUTPixel lut p).bind fun q =>
        (applyCubeLUT lut rest).map fun qs => q :: qs

/-- Unclamped flattened index of the `part_003` variant of `applyCubeLUT`
(src/unnamed/part_003, lines 359-365): no axis clamping, same
blue-fastest flattening. -/
def lutIndexV3 (lut : Lut) (p : Pixel) : Int :=
  let size := lut.size
  let x := ⌊(p.r : Rat) / 255 * ((size : Rat) - 1)⌋
  let y := ⌊(p.g : Rat) / 255 * ((size : Rat) - 1)⌋
  let z := ⌊(p.b : Rat) / 255 * ((size : Rat) - 1)⌋
  z + y * (size : Int) + x * (size : Int) * (size : Int)

/-- Per-pixel body of the `part_003` variant (src/unnamed/part_003,
lines 352-383): a bounds check `0 <= idx < data.length` guards the lookup and
the pixel passes through unchanged when it fails, so the function is total. -/
def applyCubeLUTPixelV3 (lut : Lut) (p : Pixel) : Pixel :=
  ((jsArrayGet lut.data (lutIndexV3 lut p)).map fun e =>
    (⟨byteWrite (jsRound (e.1 * 255)),
      byteWrite (jsRound (e.2.1 * 255)),
      byteWrite (jsRound (e.2.2 * 255)),
      p.a⟩ : Pixel)).getD p

/-- The `part_003` variant of `applyCubeLUT` over a buffer. -/
def applyCubeLUTV3 (lut : Lut) (buf : List Pixel) : List Pixel :=
  buf.map (applyCubeLUTPixelV3 lut)

/-- Axis coordinate as described by the specification claim: normalize to
[0,1], scale by N-1, quantize to the integer grid, clamp to [0, N-1]. -/
def claimedAxis (size : Nat) (chan : Nat) : Nat :=
  min (size - 1) (Int.toNat ⌊(chan : Rat) / 255 * ((size : Rat) - 1)⌋)

/-- Per-pixel color transform exactly as the specification claim words it
(claim C1): clamp each axis to [0, N-1], flatten with blue fastest / red
slowest (`index = b + g*N + r*N*N`), look up THE table entry at that index
(no further index clamping is mentioned), write back scaled to 8-bit, pass
alpha through. -/
def claimedLutPixel (lut : Lut) (p : Pixel) : Option Pixel :=
  let size := lut.size
  let ri := claimedAxis size p.r
  let gi := claimedAxis size p.g
  let bi := claimedAxis size p.b
  let idx := bi + gi * size + ri * size * size
  (lut.data.get? idx).map fun e =>
    ⟨byteWrite (jsRound (e.1 * 255)),
     byteWrite (jsRound (e.2.1 * 255)),
     byteWrite (jsRound (e.2.2 * 255)),
     p.a⟩

/-- The color transform as claimed by the specification, over a buffer. -/
def claimedColorTransform (lut : Lut) : List Pixel → Option (List Pixel)
  | [] => some []
  | p :: rest =>
      (claimedLutPixel lut p).bind fun q =>
        (claimedColorTransform lut rest).map fun qs => q :: qs

example : applyCubeLUT ⟨2, [(0,0,0)]⟩ [⟨255,255,255,7⟩] = some [⟨0,0,0,7⟩] := by
  have h : clampedLutIndex ⟨2, [(0,0,0)]⟩ ⟨255,255,255,7⟩ = 0 := by
    norm_num [clampedLutIndex, clampAxis]
  simp only [applyCubeLUT, applyCubeLUTPixel, h]
  norm_num [jsArrayGet, jsRound, byteWrite]
example : claimedColorTransform ⟨2, [(0,0,0)]⟩ [⟨255,255,255,7⟩] = none := by
  have h : claimedAxis 2 255 = 1 := by norm_num [claimedAxis]
  simp only [claimedColorTransform, claimedLutPixel, h]
  norm_num

lemma clampAxis_eq_claimedAxis (size c : Nat) (hsize : 1 ≤ size) :
    clampAxis size c = (claimedAxis size c : Int) := by
  unfold clampAxis claimedAxis
  have harg : (0 : Rat) ≤ (c : Rat) / 255 * ((size : Rat) - 1) := by
    have h1 : (0 : Rat) ≤ (c : Rat) / 255 := by positivity
    have h2 : (0 : Rat) ≤ (size : Rat) - 1 := by
      have : (1 : Rat) ≤ (size : Rat) := by exact_mod_cast hsize
      linarith
    exact mul_nonneg h1 h2
  have hq : (0 : Int) ≤ ⌊(c : Rat) / 255 * ((size : Rat) - 1)⌋ := Int.le_floor.2 (by simpa)
  rw [max_eq_right hq]
  have hcast : ((size : Int) - 1) = ((size - 1 : Nat) : Int) := by omega
  rw [hcast, Nat.cast_min, Int.toNat_of_nonneg hq]

lemma claimedAxis_le (size c : Nat) : claimedAxis size c ≤ size - 1 :=
  min_le_left _ _

lemma clampedLutIndex_eq (lut : Lut) (p : Pixel)
    (hlen : lut.data.length = lut.size ^ 3) (hne : lut.data ≠ []) :
    clampedLutIndex lut p =
      ((claimedAxis lut.size p.b + claimedAxis lut.size p.g * lut.size +
        claimedAxis lut.size p.r * lut.size * lut.size : Nat) : Int) := by
  have hsize : 1 ≤ lut.size := by
    by_contra hcon
    have h0 : lut.size = 0 := by omega
    have : lut.data.length = 0 := by rw [hlen, h0]; ring
    exact hne (List.length_eq_zero.1 this)
  simp only [clampedLutIndex]
  rw [clampAxis_eq_claimedAxis _ _ hsize, clampAxis_eq_claimedAxis _ _ hsize,
      clampAxis_eq_claimedAxis _ _ hsize]
  set ri := claimedAxis lut.size p.r with hri
  set gi := claimedAxis lut.size p.g with hgi
  set bi := claimedAxis lut.size p.b with hbi
  have hidx : ((bi : Int) + (gi : Int) * lut.size + (ri : Int) * lut.size * lut.size) =
      ((bi + gi * lut.size + ri * lut.size * lut.size : Nat) : Int) := by push_cast; ring
  rw [hidx]
  have hnonneg : (0 : Int) ≤ ((bi + gi * lut.size + ri * lut.size * lut.size : Nat) : Int) := by
    exact_mod_cast Nat.zero_le _
  rw [max_eq_right hnonneg]
  have hbound : bi + gi * lut.size + ri * lut.size * lut.size ≤ lut.size ^ 3 - 1 := by
    have h1 := claimedAxis_le lut.size p.r
    have h2 := claimedAxis_le lut.size p.g
    have h3 := claimedAxis_le lut.size p.b
    rw [← hri] at h1; rw [← hgi] at h2; rw [← hbi] at h3
    obtain ⟨n, hn⟩ : ∃ n, lut.size = n + 1 := ⟨lut.size - 1, by omega⟩
    rw [hn] at h1 h2 h3 ⊢
    simp only [Nat.add_sub_cancel] at h1 h2 h3
    have e2 : gi * (n + 1) ≤ n * (n + 1) := Nat.mul_le_mul_right _ h2
    have e3 : ri * ((n + 1) * (n + 1)) ≤ n * ((n + 1) * (n + 1)) := Nat.mul_le_mul_right _ h1
    have hassoc : ri * (n + 1) * (n + 1) = ri * ((n + 1) * (n + 1)) := by ring
    have hcube : (n + 1) ^ 3 = n + n * (n + 1) + n * ((n + 1) * (n + 1)) + 1 := by ring
    have key : bi + gi * (n + 1) + ri * (n + 1) * (n + 1) + 1 ≤ (n + 1) ^ 3 := by
      linarith [h3, e2, e3]
    exact Nat.le_sub_one_of_lt (Nat.lt_of_succ_le key)
  rw [min_eq_right]
  rw [hlen]
  have hpos : 1 ≤ lut.size ^ 3 := Nat.one_le_pow _ _ (by omega)
  omega

lemma applyCubeLUTPixel_eq_claimed (lut : Lut) (p : Pixel)
    (hlen : lut.data.length = lut.size ^ 3) (hne : lut.data ≠ []) :
    applyCubeLUTPixel lut p = claimedLutPixel lut p := by
  unfold applyCubeLUTPixel claimedLutPixel
  rw [clampedLutIndex_eq lut p hlen hne]
  unfold jsArrayGet
  rw [if_neg (by exact_mod_cast Int.not_lt.2 (Int.ofNat_nonneg _)), Int.toNat_ofNat]

/-- C1 (amended): for a well-formed LUT table (`entries.length = N³`, entries
non-empty), `applyCubeLUT` computes exactly the per-pixel map the
specification claims: normalize, scale by N-1, floor-quantize, clamp each
axis to [0, N-1], flatten with blue fastest / red slowest
(`index = b + g*N + r*N*N`), look up the table entry, write back scaled to
8-bit, and pass the alpha channel through unchanged. -/
theorem applyCubeLUT_matches_claimed_transform (lut : Lut) (buf : List Pixel)
    (hlen : lut.data.length = lut.size ^ 3) (hne : lut.data ≠ []) :
    applyCubeLUT lut buf = claimedColorTransform lut buf := by
  induction buf with
  | nil => rfl
  | cons p rest ih =>
      simp only [applyCubeLUT, claimedColorTransform, ih,
        applyCubeLUTPixel_eq_claimed lut p hlen hne]

/-- Witness for C1: a concrete well-formed 2×2×2 LUT (all-red table) and a
concrete 1-pixel buffer satisfying the hypotheses. -/
theorem applyCubeLUT_matches_claimed_transform_witness :
    (⟨2, [(1,0,0),(1,0,0),(1,0,0),(1,0,0),(1,0,0),(1,0,0),(1,0,0),(1,0,0)]⟩ : Lut).data.length =
        (⟨2, [(1,0,0),(1,0,0),(1,0,0),(1,0,0),(1,0,0),(1,0,0),(1,0,0),(1,0,0)]⟩ : Lut).size ^ 3 ∧
    applyCubeLUT ⟨2, [(1,0,0),(1,0,0),(1,0,0),(1,0,0),(1,0,0),(1,0,0),(1,0,0),(1,0,0)]⟩
        [⟨10, 20, 30, 40⟩] =
      claimedColorTransform ⟨2, [(1,0,0),(1,0,0),(1,0,0),(1,0,0),(1,0,0),(1,0,0),(1,0,0),(1,0,0)]⟩
        [⟨10, 20, 30, 40⟩] :=
  ⟨by norm_num,
   applyCubeLUT_matches_claimed_transform _ _ (by norm_num) (by simp)⟩

/-- C1 counterexample: for a degenerate table (size 2 declared, a single
entry) the code's extra `maxLutIndex` clamp redirects the lookup, so the
transform does not equal the claimed per-pixel map even though the entry
list is non-empty: the claim's universal statement over all tables with
non-empty entries is false. -/
theorem applyCubeLUT_claim_counterexample :
    (⟨2, [(0,0,0)]⟩ : Lut).data ≠ [] ∧
    applyCubeLUT ⟨2, [(0,0,0)]⟩ [⟨255,255,255,7⟩] ≠
      claimedColorTransform ⟨2, [(0,0,0)]⟩ [⟨255,255,255,7⟩] := by
  constructor
  · simp
  · have hcode : applyCubeLUT ⟨2, [(0,0,0)]⟩ [⟨255,255,255,7⟩] = some [⟨0,0,0,7⟩] := by
      have h : clampedLutIndex ⟨2, [(0,0,0)]⟩ ⟨255,255,255,7⟩ = 0 := by
        norm_num [clampedLutIndex, clampAxis]
      simp only [applyCubeLUT, applyCubeLUTPixel, h]
      norm_num [jsArrayGet, jsRound, byteWrite]
    have hclaim : claimedColorTransform ⟨2, [(0,0,0)]⟩ [⟨255,255,255,7⟩] = none := by
      have h : claimedAxis 2 255 = 1 := by norm_num [claimedAxis]
      simp only [claimedColorTransform, claimedLutPixel, h]
      norm_num
    rw [hcode, hclaim]
    simp

/-- C10: for every LUT table with at least one entry, the index
`applyCubeLUT` uses is clamped into `[0, entries.length - 1]`, so the lookup
never reads outside the entry list and the transform is total. -/
theorem applyCubeLUT_inBounds_total (lut : Lut) (buf : List Pixel)
    (hne : lut.data ≠ []) :
    (∀ p : Pixel, 0 ≤ clampedLutIndex lut p ∧
        clampedLutIndex lut p < (lut.data.length : Int)) ∧
    (applyCubeLUT lut buf).isSome = true := by
  have hlen : 1 ≤ lut.data.length := List.length_pos.2 hne
  have hbnd : ∀ p : Pixel, 0 ≤ clampedLutIndex lut p ∧
      clampedLutIndex lut p < (lut.data.length : Int) := by
    intro p
    unfold clampedLutIndex
    constructor
    · apply le_min
      · omega
      · exact le_max_left _ _
    · calc min ((lut.data.length : Int) - 1) _ ≤ (lut.data.length : Int) - 1 :=
            min_le_left _ _
        _ < (lut.data.length : Int) := by omega
  refine ⟨hbnd, ?_⟩
  induction buf with
  | nil => rfl
  | cons p rest ih =>
      have hpix : (applyCubeLUTPixel lut p).isSome = true := by
        unfold applyCubeLUTPixel jsArrayGet
        obtain ⟨h0, h1⟩ := hbnd p
        rw [if_neg (by omega)]
        have hlt : (clampedLutIndex lut p).toNat < lut.data.length := by omega
        simp [List.getElem?_eq_getElem hlt]
      obtain ⟨q, hq⟩ := Option.isSome_iff_exists.1 hpix
      obtain ⟨qs, hqs⟩ := Option.isSome_iff_exists.1 ih
      simp [applyCubeLUT, hq, hqs]

/-- Witness for C10 at a concrete degenerate table (declared size 2, one
entry) and concrete buffer. -/
theorem applyCubeLUT_inBounds_total_witness :
    ((⟨2, [(0,0,0)]⟩ : Lut).data ≠ []) ∧
    ((applyCubeLUT ⟨2, [(0,0,0)]⟩ [⟨255,255,255,7⟩, ⟨0,0,0,0⟩]).isSome = true) :=
  ⟨by simp, (applyCubeLUT_inBounds_total ⟨2, [(0,0,0)]⟩ [⟨255,255,255,7⟩, ⟨0,0,0,0⟩]
      (by simp)).2⟩

/-- `applyGrain` (imageProcessor.document_start.ts, lines 561-577): exit early
when `intensity === 0`; otherwise add one uniform noise sample
`(random - 0.5) * intensity * 255` per pixel to R, G and B, clamped to
[0, 255] before the clamped-array store; alpha untouched.  `noise i` models
the `Math.random()` draw for the pixel at index `i`. -/
def applyGrain (noise : Nat → Rat) (intensity : Rat) (buf : List Pixel) : List Pixel :=
  if intensity = 0 then buf
  else
    buf.mapIdx fun i p =>
      let n := (noise i - 1 / 2) * intensity * 255
      ⟨u8ClampedStore (min 255 (max 0 ((p.r : Rat) + n))),
       u8ClampedStore (min 255 (max 0 ((p.g : Rat) + n))),
       u8ClampedStore (min 255 (max 0 ((p.b : Rat) + n))),
       p.a⟩

/-- Alpha of the radial gradient of `applyVignette` at normalized gradient
position `t` (0 at the inner stop `0.7 * radius`, 1 at the outer stop
`radius`): the stops are `rgba(0,0,0,0)` and `rgba(0,0,0,amount)`, so the
interpolated (and end-extended) alpha is `amount * clamp01 t`. -/
def gradientAlpha (amount t : Rat) : Rat :=
  amount * min 1 (max 0 t)

/-- One channel of the canvas `overlay` blend function
`B(Cb, Cs) = if Cb <= 0.5 then 2*Cb*Cs else 1 - 2*(1-Cb)*(1-Cs)`. -/
def overlayBlend (cb cs : Rat) : Rat :=
  if cb ≤ 1 / 2 then 2 * cb * cs else 1 - 2 * (1 - cb) * (1 - cs)

/-- Effect of the `applyVignette` gradient fill
(imageProcessor.document_start.ts, lines 580-595) on one surface pixel whose
gradient position is `t`: composite black at alpha `gradientAlpha amount t`
over the backdrop with `globalCompositeOperation = overlay`, following the
canvas compositing equation on the premultiplied surface
(`co = as*(1-ab)*Cs + as*ab*B(Cb,Cs) + (1-as)*cb`, `ao = as + ab*(1-as)`). -/
def vignettePixel (amount t : Rat) (p : Pixel) : Pixel :=
  let alphaS := gradientAlpha amount t
  let alphaB := (p.a : Rat) / 255
  let cs : Rat := 0
  let composite : Rat → Rat := fun cb =>
    alphaS * (1 - alphaB) * cs +
      alphaS * alphaB * overlayBlend (if alphaB = 0 then 0 else cb / alphaB) cs +
      (1 - alphaS) * cb
  ⟨u8ClampedStore (composite ((p.r : Rat) / 255) * 255),
   u8ClampedStore (composite ((p.g : Rat) / 255) * 255),
   u8ClampedStore (composite ((p.b : Rat) / 255) * 255),
   u8ClampedStore ((alphaS + alphaB * (1 - alphaS)) * 255)⟩

/-- `applyVignette` over the surface.  `gradPos i` is the normalized radial
position of pixel `i` along the gradient
(`(dist(center, i) - 0.7*radius) / (0.3*radius)` with
`radius = 0.8 * max(halfWidth, halfHeight)`); it is kept as a parameter
because the distance involves a real square root, while the color and
compositing arithmetic is modelled exactly. -/
def applyVignette (amount : Rat) (gradPos : Nat → Rat) (buf : List Pixel) : List Pixel :=
  buf.mapIdx fun i p => vignettePixel amount (gradPos i) p

lemma u8ClampedStore_coe_nat (n : Nat) (h : n ≤ 255) : u8ClampedStore (n : Rat) = n := by
  simp only [u8ClampedStore]
  have h0 : max (0 : Rat) (n : Rat) = (n : Rat) := max_eq_right (by positivity)
  have h255 : min (255 : Rat) (n : Rat) = (n : Rat) :=
    min_eq_right (by exact_mod_cast h)
  rw [h0, h255, Int.floor_natCast]
  norm_num

lemma vignettePixel_zero (t : Rat) (p : Pixel)
    (h : p.r ≤ 255 ∧ p.g ≤ 255 ∧ p.b ≤ 255 ∧ p.a ≤ 255) :
    vignettePixel 0 t p = p := by
  obtain ⟨hr, hg, hb, ha⟩ := h
  unfold vignettePixel gradientAlpha
  have hchan : ∀ c : Nat, ((c : Rat) / 255) * 255 = (c : Rat) := by
    intro c
    field_simp
  simp only [zero_mul, one_mul, mul_zero, zero_add, sub_zero, add_zero, hchan]
  rw [u8ClampedStore_coe_nat _ hr, u8ClampedStore_coe_nat _ hg,
      u8ClampedStore_coe_nat _ hb]
  have halpha : ((p.a : Rat) / 255 * 1) * 255 = (p.a : Rat) := by
    field_simp
  rw [halpha, u8ClampedStore_coe_nat _ ha]

lemma mapIdx_id_of_pointwise {α : Type} (f : Nat → α → α) (l : List α)
    (h : ∀ i a, a ∈ l → f i a = a) : l.mapIdx f = l := by
  induction l generalizing f with
  | nil => rfl
  | cons a rest ih =>
      rw [List.mapIdx_cons, h 0 a (by simp), ih]
      intro i b hb
      exact h (i + 1) b (by simp [hb])

/-- C9: both post-effects are the identity at zero strength: `applyGrain`
with intensity 0 returns the buffer unchanged (early return in the source),
and `applyVignette` with amount 0 composites a fully transparent gradient,
leaving every byte of every (byte-valued) pixel unchanged, alpha included. -/
theorem grain_vignette_identity_at_zero :
    (∀ (noise : Nat → Rat) (buf : List Pixel), applyGrain noise 0 buf = buf) ∧
    (∀ (gradPos : Nat → Rat) (buf : List Pixel),
      (∀ p ∈ buf, p.r ≤ 255 ∧ p.g ≤ 255 ∧ p.b ≤ 255 ∧ p.a ≤ 255) →
      applyVignette 0 gradPos buf = buf) := by
  constructor
  · intro noise buf
    simp [applyGrain]
  · intro gradPos buf hbytes
    unfold applyVignette
    exact mapIdx_id_of_pointwise _ _ fun i p hp => vignettePixel_zero _ p (hbytes p hp)

/-- Witness for C9 at a concrete byte-valued buffer, concrete noise source and
concrete gradient geometry. -/
theorem grain_vignette_identity_at_zero_witness :
    (∀ p ∈ [(⟨10, 20, 30, 40⟩ : Pixel)], p.r ≤ 255 ∧ p.g ≤ 255 ∧ p.b ≤ 255 ∧ p.a ≤ 255) ∧
    applyGrain (fun _ => 1 / 3) 0 [⟨10, 20, 30, 40⟩] = [⟨10, 20, 30, 40⟩] ∧
    applyVignette 0 (fun _ => 1 / 2) [⟨10, 20, 30, 40⟩] = [⟨10, 20, 30, 40⟩] :=
  ⟨by decide,
   grain_vignette_identity_at_zero.1 _ _,
   grain_vignette_identity_at_zero.2 _ _ (by decide)⟩

/-- JavaScript whitespace class used by `trim` and the token split
(space, tab, newline, carriage return, vertical tab, form feed cover every
character appearing in CUBE assets). -/
def isJsSpace (c : Char) : Bool :=
  c = ' ' || c = '\t' || c = '\n' || c = '\r' || c = '\x0b' || c = '\x0c'

/-- JavaScript `text.split('\n')` over the code points of the string:
`""` gives `[""]`, separators at the ends produce empty pieces. -/
def splitOnNewline : List Char → List (List Char)
  | [] => [[]]
  | c :: cs =>
      let r := splitOnNewline cs
      if c = '\n' then [] :: r
      else
        match r with
        | [] => [[c]]
        | l :: ls => (c :: l) :: ls

/-- JavaScript `line.trim()`: strip leading and trailing whitespace. -/
def trimChars (l : List Char) : List Char :=
  ((l.dropWhile isJsSpace).reverse.dropWhile isJsSpace).reverse

/-- JavaScript `s.startsWith(pat)` on code points (pattern first). -/
def listStartsWith : List Char → List Char → Bool
  | [], _ => true
  | _ :: _, [] => false
  | p :: ps, c :: cs => p = c && listStartsWith ps cs

/-- Single pass accumulating the current run of non-whitespace characters
(in reverse). -/
def wsTokensAux : List Char → List Char → List (List Char)
  | [], cur => if cur.isEmpty then [] else [cur.reverse]
  | c :: cs, cur =>
      if isJsSpace c then
        if cur.isEmpty then wsTokensAux cs []
        else cur.reverse :: wsTokensAux cs []
      else wsTokensAux cs (c :: cur)

/-- JavaScript `trimmed.split(/\s+/)` on an already-trimmed line: the list of
maximal runs of non-whitespace characters (all non-empty). -/
def wsTokens (l : List Char) : List (List Char) :=
  wsTokensAux l []

/-- JavaScript `parseInt(tok, 10)` restricted to the shapes appearing in CUBE
size directives: the longest digit run at the start of the token, `none`
modelling `NaN` when there is none.  (Sign prefixes never occur in a
`LUT_3D_SIZE` argument.) -/
def parseIntTok (t : List Char) : Option Nat :=
  let ds := t.takeWhile Char.isDigit
  if ds.isEmpty then none
  else some (ds.foldl (fun a c => a * 10 + (c.toNat - 48)) 0)

/-- Parser accumulator of `parseCubeLUT`: `size` starts as `some 0` (the
source initializes `lut.size = 0`) and becomes `none` if a directive argument
parses to `NaN`; `data` keeps each pushed row as its raw token triple (the
`Number(...)` conversion of the tokens plays no role in any claim and is left
uninterpreted). -/
structure LutAcc where
  size : Option Nat
  data : List (List (List Char))
deriving DecidableEq, Repr

/-- The `LUT_3D_SIZE` directive name. -/
def sizeDirectivePat : List Char := "LUT_3D_SIZE".toList

/-- Body of the line loop of `parseCubeLUT`
(imageProcessor.document_start.ts, lines 498-517): skip comment and blank
lines, read the size from a `LUT_3D_SIZE` directive, push any other line that
splits into exactly three tokens as a color row. -/
def parseLine (acc : LutAcc) (line : List Char) : LutAcc :=
  let trimmed := trimChars line
  if listStartsWith ['#'] trimmed || trimmed.isEmpty then acc
  else if listStartsWith sizeDirectivePat trimmed then
    { acc with size := (wsTokens trimmed).get? 1 >>= parseIntTok }
  else if (wsTokens trimmed).length = 3 then
    { acc with data := acc.data ++ [wsTokens trimmed] }
  else acc

/-- `parseCubeLUT` (imageProcessor.document_start.ts, lines 489-522), cache
miss path: split the text on newlines and fold the line parser.  (The
`lutCache` memoization by preset name is outside the parsing semantics.) -/
def parseCubeLUT (text : List Char) : LutAcc :=
  (splitOnNewline text).foldl parseLine ⟨some 0, []⟩

/-- Line classification: comment or blank (ignored by the parser). -/
def isSkipLine (line : List Char) : Bool :=
  listStartsWith ['#'] (trimChars line) || (trimChars line).isEmpty

/-- Line classification: size directive. -/
def isSizeDirLine (line : List Char) : Bool :=
  !isSkipLine line && listStartsWith sizeDirectivePat (trimChars line)

/-- The size value a directive line declares. -/
def declaredSize (line : List Char) : Option Nat :=
  (wsTokens (trimChars line)).get? 1 >>= parseIntTok

/-- Line classification: a color row (exactly three whitespace-separated
tokens, not a comment/blank/directive). -/
def isRowLine (line : List Char) : Bool :=
  !isSkipLine line && !listStartsWith sizeDirectivePat (trimChars line) &&
    (wsTokens (trimChars line)).length = 3

lemma parseLine_skip (acc : LutAcc) (l : List Char) (h : isSkipLine l = true) :
    parseLine acc l = acc := by
  unfold parseLine
  unfold isSkipLine at h
  rw [if_pos h]

lemma parseLine_size (acc : LutAcc) (l : List Char) (h : isSizeDirLine l = true) :
    parseLine acc l = { acc with size := declaredSize l } := by
  unfold isSizeDirLine at h
  rw [Bool.and_eq_true, Bool.not_eq_true'] at h
  unfold parseLine declaredSize
  rw [if_neg (by rw [isSkipLine] at h; simp [h.1]), if_pos h.2]

lemma parseLine_row (acc : LutAcc) (l : List Char) (h : isRowLine l = true) :
    parseLine acc l = { acc with data := acc.data ++ [wsTokens (trimChars l)] } := by
  unfold isRowLine at h
  rw [Bool.and_eq_true, Bool.and_eq_true, Bool.not_eq_true', Bool.not_eq_true'] at h
  unfold parseLine
  rw [if_neg (by rw [isSkipLine] at h; simp [h.1.1]), if_neg (by simp [h.1.2]),
    if_pos (by simpa using h.2)]

lemma parseLine_data_length (acc : LutAcc) (l : List Char) :
    (parseLine acc l).data.length =
      acc.data.length + (if isRowLine l then 1 else 0) := by
  by_cases hrow : isRowLine l = true
  · rw [parseLine_row acc l hrow, if_pos hrow]
    simp
  · rw [if_neg hrow]
    unfold isRowLine at hrow
    unfold parseLine
    by_cases h1 : (listStartsWith ['#'] (trimChars l) || (trimChars l).isEmpty) = true
    · rw [if_pos h1]; simp
    · rw [if_neg h1]
      by_cases h2 : listStartsWith sizeDirectivePat (trimChars l) = true
      · rw [if_pos h2]; simp
      · rw [if_neg h2]
        have h3 : ¬((wsTokens (trimChars l)).length = 3) := by
          intro hc
          apply hrow
          unfold isSkipLine
          simp only [Bool.and_eq_true, Bool.not_eq_true]
          refine ⟨⟨?_, by simp [h2]⟩, by simp [hc]⟩
          simpa using h1
        rw [if_neg (by simpa using h3)]
        simp

lemma foldl_parseLine_spec (N : Nat) (lines : List (List Char)) :
    ∀ acc : LutAcc,
    (∀ l ∈ lines, isSizeDirLine l = true → declaredSize l = some N) →
    ((lines.foldl parseLine acc).size =
        if lines.countP isSizeDirLine = 0 then acc.size else some N) ∧
    (lines.foldl parseLine acc).data.length =
        acc.data.length + lines.countP isRowLine := by
  induction lines with
  | nil => intro acc _; simp
  | cons l rest ih =>
      intro acc hdecl
      have hdecl' : ∀ x ∈ rest, isSizeDirLine x = true → declaredSize x = some N :=
        fun x hx => hdecl x (List.mem_cons_of_mem _ hx)
      simp only [List.foldl_cons]
      by_cases hsz : isSizeDirLine l = true
      · have hrow : isRowLine l = false := by
          unfold isSizeDirLine at hsz
          unfold isRowLine
          rw [Bool.and_eq_true] at hsz
          simp [hsz.2]
        rw [parseLine_size acc l hsz, hdecl l (by simp) hsz]
        obtain ⟨ihs, ihd⟩ := ih { acc with size := some N } hdecl'
        constructor
        · rw [ihs]
          have : (l :: rest).countP isSizeDirLine ≠ 0 := by
            rw [List.countP_cons_of_pos _ _ hsz]
            omega
          rw [if_neg this]
          by_cases h0 : rest.countP isSizeDirLine = 0 <;> simp [h0]
        · rw [ihd, List.countP_cons_of_neg _ _ (by simp [hrow])]
      · obtain ⟨ihs, ihd⟩ := ih (parseLine acc l) hdecl'
        have hcnt : (l :: rest).countP isSizeDirLine = rest.countP isSizeDirLine :=
          List.countP_cons_of_neg _ _ (by simpa using hsz)
        have hsame : (parseLine acc l).size = acc.size := by
          by_cases hskip : isSkipLine l = true
          · rw [parseLine_skip acc l hskip]
          · by_cases hrow : isRowLine l = true
            · rw [parseLine_row acc l hrow]
            · unfold parseLine
              rw [if_neg (by unfold isSkipLine at hskip; simpa using hskip)]
              rw [if_neg ?hdir]
              case hdir =>
                intro hc
                apply hsz
                unfold isSizeDirLine
                simp [hc, hskip]
              by_cases h3 : (wsTokens (trimChars l)).length = 3
              · rw [if_pos (by simpa using h3)]
              · rw [if_neg (by simpa using h3)]
        constructor
        · rw [ihs, hcnt, hsame]
        · rw [ihd, parseLine_data_length, List.countP_cons]
          by_cases hrow : isRowLine l = true <;> simp [hrow] <;> omega

lemma foldl_parseLine_data (lines : List (List Char)) :
    ∀ acc : LutAcc,
    (lines.foldl parseLine acc).data.length =
      acc.data.length + lines.countP isRowLine := by
  induction lines with
  | nil => intro acc; simp
  | cons l rest ih =>
      intro acc
      simp only [List.foldl_cons]
      rw [ih (parseLine acc l), parseLine_data_length, List.countP_cons]
      by_cases hrow : isRowLine l = true <;> simp [hrow] <;> omega

/-- C2: for a valid CUBE text — every line a comment/blank line, a size
directive, or a 3-token color row; exactly one size directive, declaring `N`;
exactly `N³` color rows — `parseCubeLUT` returns `size = N` and an entry list
of length exactly `N³`. -/
theorem parseCubeLUT_valid_text (text : List Char) (N : Nat)
    (hclass : ∀ l ∈ splitOnNewline text,
      isSkipLine l = true ∨ isSizeDirLine l = true ∨ isRowLine l = true)
    (hone : (splitOnNewline text).countP isSizeDirLine = 1)
    (hdecl : ∀ l ∈ splitOnNewline text, isSizeDirLine l = true → declaredSize l = some N)
    (hrows : (splitOnNewline text).countP isRowLine = N ^ 3) :
    (parseCubeLUT text).size = some N ∧
    (parseCubeLUT text).data.length = N ^ 3 := by
  obtain ⟨hs, hd⟩ := foldl_parseLine_spec N (splitOnNewline text) ⟨some 0, []⟩ hdecl
  unfold parseCubeLUT
  rw [hs, hd, hone, hrows]
  exact ⟨by norm_num, by simp⟩

/-- A concrete valid CUBE text declaring size 2 with exactly 8 rows. -/
def validCubeText : List Char :=
  ("LUT_3D_SIZE 2\n# comment\n0 0 0\n0 0 1\n0 1 0\n0 1 1\n1 0 0\n1 0 1\n1 1 0\n1 1 1").toList

/-- Witness for C2: the hypotheses hold of `validCubeText` with `N = 2`, and
the theorem instantiates to it. -/
theorem parseCubeLUT_valid_text_witness :
    (splitOnNewline validCubeText).countP isSizeDirLine = 1 ∧
    (splitOnNewline validCubeText).countP isRowLine = 2 ^ 3 ∧
    (parseCubeLUT validCubeText).size = some 2 ∧
    (parseCubeLUT validCubeText).data.length = 2 ^ 3 := by
  refine ⟨by decide, by decide, ?_⟩
  have h := parseCubeLUT_valid_text validCubeText 2 (by decide) (by decide)
    (by decide) (by decide)
  exact h

/-- A CUBE text declaring size 2 but containing only 7 rows (row-count
mismatch of 1, well inside the claimed 20-row slack). -/
def shortCubeText : List Char :=
  ("LUT_3D_SIZE 2\n0 0 0\n0 0 1\n0 1 0\n0 1 1\n1 0 0\n1 0 1\n1 1 0").toList

/-- C3 counterexample: on a mismatch of one row (≤ the claimed slack of 20)
`parseCubeLUT` performs no repair at all — it returns the 7 rows it found,
not the `N³ = 8` entries the claim requires, and raises no `ParseError`. -/
theorem parseCubeLUT_no_repair_counterexample :
    (parseCubeLUT shortCubeText).size = some 2 ∧
    (parseCubeLUT shortCubeText).data.length = 7 ∧ (7 : Nat) ≠ 2 ^ 3 := by
  refine ⟨by decide, by decide, by decide⟩

/-- The row-count repair stage of the parser in
`src/web-luts/examples/lights-out-test.html` (lines 297-321), for a declared
(non-inferred) size: accept an exact count; within a mismatch of 20 rows, pad
with a copy of the last row or truncate with `slice`; beyond that, throw.
Padding an empty data array would spread `undefined` and throw, hence the
`none` branch. -/
def lightsOutRepair {α : Type} (size : Nat) (data : List α) : Except String (List α) :=
  if data.length = size * size * size then .ok data
  else
    let expectedCount := size * size * size
    let diff := Int.natAbs ((expectedCount : Int) - (data.length : Int))
    if diff ≤ 20 then
      if data.length < expectedCount then
        match data.getLast? with
        | some lastEntry => .ok (data ++ List.replicate (expectedCount - data.length) lastEntry)
        | none => .error "cannot pad empty LUT data"
      else .ok (List.take expectedCount data)
    else .error "Invalid LUT file: size mismatch is too large to fix automatically"

/-- C3 (amended): the extension's `parseCubeLUT` performs no row-count repair
and never raises a parse error — its entry list is always exactly the color
rows found in the text, whatever the declared size; the claimed
pad/truncate-within-slack-20-else-error behavior belongs to the example
parser in `web-luts/examples/lights-out-test.html`, whose repair stage it
describes exactly. -/
theorem parse_repair_located (text : List Char) {α : Type}
    (size : Nat) (data : List α) :
    ((parseCubeLUT text).data.length = (splitOnNewline text).countP isRowLine) ∧
    (data ≠ [] → Int.natAbs ((size * size * size : Int) - (data.length : Int)) ≤ 20 →
      ∃ d, lightsOutRepair size data = .ok d ∧ d.length = size * size * size) ∧
    (20 < Int.natAbs ((size * size * size : Int) - (data.length : Int)) →
      lightsOutRepair size data =
        .error "Invalid LUT file: size mismatch is too large to fix automatically") := by
  refine ⟨?_, ?_, ?_⟩
  · unfold parseCubeLUT
    rw [foldl_parseLine_data]
    simp
  · intro hne hslack
    unfold lightsOutRepair
    by_cases hexact : data.length = size * size * size
    · rw [if_pos hexact]
      exact ⟨data, rfl, hexact⟩
    · rw [if_neg hexact]
      have hcast : ((size * size * size : Nat) : Int) = (size * size * size : Int) := by
        push_cast; ring
      rw [if_pos (by rw [hcast]; exact hslack)]
      by_cases hlt : data.length < size * size * size
      · rw [if_pos hlt]
        obtain ⟨x, hx⟩ : ∃ x, data.getLast? = some x := by
          cases hlast : data.getLast? with
          | none => exact absurd (List.getLast?_eq_none_iff.1 hlast) hne
          | some x => exact ⟨x, rfl⟩
        rw [hx]
        refine ⟨_, rfl, ?_⟩
        rw [List.length_append, List.length_replicate]
        omega
      · rw [if_neg hlt]
        refine ⟨_, rfl, ?_⟩
        rw [List.length_take]
        omega
  · intro hbig
    unfold lightsOutRepair
    have hexact : ¬(data.length = size * size * size) := by
      intro hc
      rw [hc] at hbig
      simp at hbig
    rw [if_neg hexact]
    have hcast : ((size * size * size : Nat) : Int) = (size * size * size : Int) := by
      push_cast; ring
    rw [if_neg (by rw [hcast]; omega)]

/-- Witness for C3 (amended): concrete instances — a 7-entry data list against
declared size 2 (mismatch 1: repaired by the example parser, length 8), and a
1-entry list against declared size 3 (mismatch 26: hard error). -/
theorem parse_repair_located_witness :
    (List.replicate 7 () ≠ []) ∧
    (Int.natAbs ((2 * 2 * 2 : Int) - ((List.replicate 7 ()).length : Int)) ≤ 20) ∧
    (∃ d, lightsOutRepair 2 (List.replicate 7 ()) = .ok d ∧ d.length = 2 * 2 * 2) ∧
    (20 < Int.natAbs ((3 * 3 * 3 : Int) - (([()] : List Unit).length : Int))) ∧
    lightsOutRepair 3 [()] =
      .error "Invalid LUT file: size mismatch is too large to fix automatically" :=
  ⟨by decide, by decide,
   (parse_repair_located [] 2 (List.replicate 7 ())).2.1 (by decide) (by decide),
   by decide,
   (parse_repair_located [] 3 [()]).2.2 (by decide)⟩

/-- `CONFIG.MAX_CACHE_SIZE` (imageProcessor.document_start.ts, line 220). -/
def MAX_CACHE_SIZE : Nat := 300

/-- `CONFIG.CACHE_CLEAN_THRESHOLD` (imageProcessor.document_start.ts, line 222). -/
def CACHE_CLEAN_THRESHOLD : Nat := 250

/-- State of `cacheManager` (imageProcessor.document_start.ts, lines 251-305):
`entries` is the key-to-timestamp `Map` in insertion order; the companion
`processedUrlCache` `Set` always holds exactly the same keys (every
`cacheManager` operation updates both together), so one association list
models both.  The key type is kept abstract (the source uses strings). -/
structure CacheState (κ : Type) where
  entries : List (κ × Nat)
deriving DecidableEq, Repr

/-- JavaScript `Map.set`: update the value in place if the key exists
(keeping its position), otherwise append. -/
def mapSet {κ : Type} [DecidableEq κ] (l : List (κ × Nat)) (k : κ) (t : Nat) :
    List (κ × Nat) :=
  if l.any fun e => decide (e.1 = k) then
    l.map fun e => if e.1 = k then (k, t) else e
  else l ++ [(k, t)]

/-- `cacheManager.delete` (lines 272-275): remove the entry with the given
key from both structures.  (Under the maintained key-uniqueness invariant the
filter removes exactly the one `Map` entry.) -/
def cacheDelete {κ : Type} [DecidableEq κ] (s : CacheState κ) (k : κ) : CacheState κ :=
  ⟨s.entries.filter fun e => decide (e.1 ≠ k)⟩

/-- Ascending-timestamp comparator of `cacheManager.cleanup`
(`.sort((a, b) => a[1] - b[1])`). -/
def byTimestamp {κ : Type} : (κ × Nat) → (κ × Nat) → Prop :=
  fun a b => a.2 ≤ b.2

instance {κ : Type} : DecidableRel (@byTimestamp κ) :=
  fun a b => Nat.decLe a.2 b.2

instance {κ : Type} : IsTotal (κ × Nat) byTimestamp :=
  ⟨fun a b => Nat.le_total a.2 b.2⟩

instance {κ : Type} : IsTrans (κ × Nat) byTimestamp :=
  ⟨fun _ _ _ h1 h2 => Nat.le_trans h1 h2⟩

/-- `cacheManager.cleanup` (lines 278-297): return unless the size exceeds
`MAX_CACHE_SIZE`; otherwise sort the entries by timestamp ascending and
delete the first `size - MAX_CACHE_SIZE` keys of the sorted order. -/
def cacheCleanup {κ : Type} [DecidableEq κ] (s : CacheState κ) : CacheState κ :=
  if s.entries.length ≤ MAX_CACHE_SIZE then s
  else
    (((List.insertionSort byTimestamp s.entries).take
        (s.entries.length - MAX_CACHE_SIZE)).map Prod.fst).foldl cacheDelete s

/-- `cacheManager.add` (lines 256-264): insert the key with the current
timestamp into both structures, then run `cleanup` if the size exceeds
`CACHE_CLEAN_THRESHOLD`.  `t` is the `Date.now()` reading. -/
def cacheAdd {κ : Type} [DecidableEq κ] (s : CacheState κ) (k : κ) (t : Nat) :
    CacheState κ :=
  if CACHE_CLEAN_THRESHOLD < (mapSet s.entries k t).length
  then cacheCleanup ⟨mapSet s.entries k t⟩
  else ⟨mapSet s.entries k t⟩

/-- A sequence of `cacheManager.add` operations. -/
def runAdds {κ : Type} [DecidableEq κ] (s : CacheState κ) (ops : List (κ × Nat)) :
    CacheState κ :=
  ops.foldl (fun st op => cacheAdd st op.1 op.2) s

lemma foldl_cacheDelete_entries {κ : Type} [DecidableEq κ] (victims : List κ) :
    ∀ s : CacheState κ,
      (victims.foldl cacheDelete s).entries =
        s.entries.filter fun e => decide (e.1 ∉ victims) := by
  induction victims with
  | nil =>
      intro s
      simp
  | cons v vs ih =>
      intro s
      rw [List.foldl_cons, ih (cacheDelete s v)]
      show (List.filter _ (s.entries.filter fun e => decide (e.1 ≠ v))) = _
      rw [List.filter_filter]
      apply List.filter_congr
      intro e _
      by_cases h1 : e.1 = v
      · simp [h1]
      · by_cases h2 : e.1 ∈ vs <;> simp [h1, h2]

lemma cacheCleanup_length_le {κ : Type} [DecidableEq κ] (s : CacheState κ) :
    (cacheCleanup s).entries.length ≤ MAX_CACHE_SIZE := by
  unfold cacheCleanup
  by_cases hle : s.entries.length ≤ MAX_CACHE_SIZE
  · rw [if_pos hle]; exact hle
  · rw [if_neg hle]
    set rc := s.entries.length - MAX_CACHE_SIZE with hrc
    set sorted := List.insertionSort byTimestamp s.entries with hsorted
    set victims := (sorted.take rc).map Prod.fst with hvic
    have hperm : List.Perm sorted s.entries := List.perm_insertionSort _ _
    rw [foldl_cacheDelete_entries]
    have hfl : (s.entries.filter fun e => decide (e.1 ∉ victims)).length =
        (sorted.filter fun e => decide (e.1 ∉ victims)).length :=
      ((hperm.filter _)).length_eq.symm
    rw [hfl]
    have hsplit : sorted.filter (fun e => decide (e.1 ∉ victims)) =
        (sorted.take rc).filter (fun e => decide (e.1 ∉ victims)) ++
          (sorted.drop rc).filter (fun e => decide (e.1 ∉ victims)) := by
      rw [← List.filter_append, List.take_append_drop]
    have htake_nil : (sorted.take rc).filter (fun e => decide (e.1 ∉ victims)) = [] := by
      rw [List.filter_eq_nil_iff]
      intro e he
      have : e.1 ∈ victims := List.mem_map_of_mem Prod.fst he
      simp [this]
    rw [hsplit, htake_nil, List.nil_append]
    calc ((sorted.drop rc).filter fun e => decide (e.1 ∉ victims)).length
        ≤ (sorted.drop rc).length := List.length_filter_le _ _
      _ = sorted.length - rc := by rw [List.length_drop]
      _ ≤ MAX_CACHE_SIZE := by
          rw [hperm.length_eq]
          omega

lemma cacheAdd_length_le {κ : Type} [DecidableEq κ] (s : CacheState κ) (k : κ) (t : Nat) :
    (cacheAdd s k t).entries.length ≤ MAX_CACHE_SIZE := by
  unfold cacheAdd
  by_cases hth : CACHE_CLEAN_THRESHOLD < (mapSet s.entries k t).length
  · rw [if_pos hth]
    exact cacheCleanup_length_le _
  · rw [if_neg hth]
    show (mapSet s.entries k t).length ≤ MAX_CACHE_SIZE
    unfold MAX_CACHE_SIZE
    unfold CACHE_CLEAN_THRESHOLD at hth
    omega

lemma cacheCleanup_over_spec {κ : Type} [DecidableEq κ] (s : CacheState κ)
    (hkeys : (s.entries.map Prod.fst).Nodup)
    (htimes : (s.entries.map Prod.snd).Nodup)
    (hover : MAX_CACHE_SIZE < s.entries.length) :
    (cacheCleanup s).entries.length = MAX_CACHE_SIZE ∧
    (∀ f ∈ (cacheCleanup s).entries, f ∈ s.entries) ∧
    (∀ e ∈ s.entries, e ∉ (cacheCleanup s).entries →
      ∀ f ∈ (cacheCleanup s).entries, e.2 < f.2) := by
  have hne : ¬(s.entries.length ≤ MAX_CACHE_SIZE) := by omega
  set rc := s.entries.length - MAX_CACHE_SIZE with hrc
  set sorted := List.insertionSort byTimestamp s.entries with hsorted_def
  set victims := (sorted.take rc).map Prod.fst with hvic
  set p : κ × Nat → Bool := fun e => decide (e.1 ∉ victims) with hp
  have hperm : List.Perm sorted s.entries := List.perm_insertionSort _ _
  have hout : (cacheCleanup s).entries = s.entries.filter p := by
    unfold cacheCleanup
    rw [if_neg hne]
    exact foldl_cacheDelete_entries _ _
  have hkeys_sorted : (sorted.map Prod.fst).Nodup :=
    ((hperm.map Prod.fst).nodup_iff).2 hkeys
  have htimes_sorted : (sorted.map Prod.snd).Nodup :=
    ((hperm.map Prod.snd).nodup_iff).2 htimes
  have hinj1 := List.inj_on_of_nodup_map hkeys_sorted
  have hinj2 := List.inj_on_of_nodup_map htimes_sorted
  have htake_false : ∀ e ∈ sorted.take rc, p e = false := by
    intro e he
    have : e.1 ∈ victims := List.mem_map_of_mem Prod.fst he
    simp [hp, this]
  have hdrop_true : ∀ e ∈ sorted.drop rc, p e = true := by
    intro e he
    by_contra hc
    have hmem : e.1 ∈ victims := by
      simp only [hp, decide_eq_true_eq] at hc
      simpa using hc
    obtain ⟨f, hf, hfe⟩ := List.mem_map.1 hmem
    have hfs : f ∈ sorted := List.mem_of_mem_take hf
    have hes : e ∈ sorted := List.mem_of_mem_drop he
    have hef : f = e := hinj1 hfs hes hfe
    subst hef
    have hsplitkeys := hkeys_sorted
    rw [← List.take_append_drop rc sorted, List.map_append] at hsplitkeys
    have hdisj := (List.nodup_append.1 hsplitkeys).2.2
    exact hdisj (List.mem_map_of_mem Prod.fst hf) (List.mem_map_of_mem Prod.fst he)
  have hdrop_all : (sorted.drop rc).filter p = sorted.drop rc :=
    List.filter_eq_self.2 hdrop_true
  have htake_nil : (sorted.take rc).filter p = [] :=
    List.filter_eq_nil_iff.2 (fun a ha => by rw [htake_false a ha]; simp)
  have hsplit : sorted.filter p = sorted.drop rc := by
    conv_lhs => rw [← List.take_append_drop rc sorted]
    rw [List.filter_append, htake_nil, hdrop_all, List.nil_append]
  have hflen : (s.entries.filter p).length = (sorted.filter p).length :=
    ((hperm.filter p)).length_eq.symm
  refine ⟨?_, ?_, ?_⟩
  · rw [hout, hflen, hsplit, List.length_drop, hperm.length_eq]
    omega
  · intro f hf
    rw [hout] at hf
    exact List.mem_of_mem_filter hf
  · intro e he hnot f hf
    have hpe : p e = false := by
      by_contra hc
      have : p e = true := by
        cases hpc : p e
        · exact absurd hpc hc
        · rfl
      exact hnot (by rw [hout]; exact List.mem_filter.2 ⟨he, this⟩)
    have hevic : e.1 ∈ victims := by
      simp only [hp, decide_eq_false_iff_not, not_not] at hpe
      exact hpe
    obtain ⟨g, hg, hge⟩ := List.mem_map.1 hevic
    have hgs : g ∈ sorted := List.mem_of_mem_take hg
    have hes : e ∈ sorted := hperm.mem_iff.2 he
    have hgeq : g = e := hinj1 hgs hes hge
    subst hgeq
    rw [hout] at hf
    have hfmem : f ∈ s.entries := List.mem_of_mem_filter hf
    have hpf : p f = true := (List.mem_filter.1 hf).2
    have hfs : f ∈ sorted := hperm.mem_iff.2 hfmem
    have hfdrop : f ∈ sorted.drop rc := by
      have := hfs
      rw [← List.take_append_drop rc sorted] at this
      rcases List.mem_append.1 this with hft | hfd
      · rw [htake_false f hft] at hpf
        exact absurd hpf (by simp)
      · exact hfd
    have hle : byTimestamp g f := by
      have hpw : List.Pairwise byTimestamp sorted :=
        List.sorted_insertionSort byTimestamp s.entries
      rw [← List.take_append_drop rc sorted] at hpw
      exact (List.pairwise_append.1 hpw).2.2 g hg f hfdrop
    have hneq : g.2 ≠ f.2 := by
      intro hc
      have : g = f := hinj2 (List.mem_of_mem_take hg) (List.mem_of_mem_drop hfdrop) hc
      rw [this] at hpe
      rw [hpe] at hpf
      exact absurd hpf (by simp)
    exact lt_of_le_of_ne hle hneq

/-- C4: (bound) after every prefix of any sequence of `cacheManager.add`
operations starting from the empty cache, the number of stored entries is at
most `MAX_CACHE_SIZE`; (eviction policy) whenever an `add` step triggers
eviction, the surviving entries are `MAX_CACHE_SIZE` many, all drawn from the
pre-eviction entries, and every evicted entry has a strictly older recorded
insertion timestamp than every surviving one — eviction is by insertion
time, not access order. -/
theorem cacheManager_bounded_evicts_oldest {κ : Type} [DecidableEq κ] :
    (∀ (ops : List (κ × Nat)) (n : Nat),
      (runAdds (⟨[]⟩ : CacheState κ) (ops.take n)).entries.length ≤ MAX_CACHE_SIZE) ∧
    (∀ (s : CacheState κ) (k : κ) (t : Nat),
      ((mapSet s.entries k t).map Prod.fst).Nodup →
      ((mapSet s.entries k t).map Prod.snd).Nodup →
      MAX_CACHE_SIZE < (mapSet s.entries k t).length →
      (cacheAdd s k t).entries.length = MAX_CACHE_SIZE ∧
      (∀ f ∈ (cacheAdd s k t).entries, f ∈ mapSet s.entries k t) ∧
      (∀ e ∈ mapSet s.entries k t, e ∉ (cacheAdd s k t).entries →
        ∀ f ∈ (cacheAdd s k t).entries, e.2 < f.2)) := by
  constructor
  · intro ops n
    have hgen : ∀ (l : List (κ × Nat)) (s : CacheState κ),
        s.entries.length ≤ MAX_CACHE_SIZE →
        (runAdds s l).entries.length ≤ MAX_CACHE_SIZE := by
      intro l
      induction l with
      | nil => intro s hs; exact hs
      | cons op rest ih =>
          intro s _
          exact ih (cacheAdd s op.1 op.2) (cacheAdd_length_le s op.1 op.2)
    exact hgen (ops.take n) ⟨[]⟩ (by simp [MAX_CACHE_SIZE])
  · intro s k t hkeys htimes hover
    have hth : CACHE_CLEAN_THRESHOLD < (mapSet s.entries k t).length := by
      unfold MAX_CACHE_SIZE at hover
      unfold CACHE_CLEAN_THRESHOLD
      omega
    have hstep : cacheAdd s k t = cacheCleanup ⟨mapSet s.entries k t⟩ := by
      unfold cacheAdd
      rw [if_pos hth]
    rw [hstep]
    exact cacheCleanup_over_spec ⟨mapSet s.entries k t⟩ hkeys htimes hover

/-- A concrete full cache: 300 entries with keys and timestamps 0..299. -/
def fullCacheEntries : List (Nat × Nat) :=
  (List.range 300).map fun i => (i, i)

lemma fullCacheEntries_mapSet :
    mapSet fullCacheEntries 300 300 = fullCacheEntries ++ [(300, 300)] := by
  unfold mapSet
  rw [if_neg]
  intro hc
  rw [List.any_eq_true] at hc
  obtain ⟨e, he, hke⟩ := hc
  unfold fullCacheEntries at he
  obtain ⟨i, hi, rfl⟩ := List.mem_map.1 he
  rw [List.mem_range] at hi
  simp only [decide_eq_true_eq] at hke
  omega

lemma fullCacheEntries_mapSet_fst :
    (mapSet fullCacheEntries 300 300).map Prod.fst = List.range 301 := by
  rw [fullCacheEntries_mapSet, List.map_append]
  unfold fullCacheEntries
  rw [List.map_map]
  rw [show (Prod.fst ∘ fun i : Nat => (i, i)) = id from rfl, List.map_id]
  rw [show ([(300, 300)].map Prod.fst) = [300] from rfl]
  exact (List.range_succ 300).symm

lemma fullCacheEntries_mapSet_snd :
    (mapSet fullCacheEntries 300 300).map Prod.snd = List.range 301 := by
  rw [fullCacheEntries_mapSet, List.map_append]
  unfold fullCacheEntries
  rw [List.map_map]
  rw [show (Prod.snd ∘ fun i : Nat => (i, i)) = id from rfl, List.map_id]
  rw [show ([(300, 300)].map Prod.snd) = [300] from rfl]
  exact (List.range_succ 300).symm

/-- Witness for C4: a concrete cache of 300 distinct-key, distinct-timestamp
entries receiving a fresh 301st key, which triggers an eviction down to
exactly `MAX_CACHE_SIZE` entries; plus a small concrete add sequence for the
bound. -/
theorem cacheManager_bounded_evicts_oldest_witness :
    ((mapSet fullCacheEntries 300 300).map Prod.fst).Nodup ∧
    ((mapSet fullCacheEntries 300 300).map Prod.snd).Nodup ∧
    MAX_CACHE_SIZE < (mapSet fullCacheEntries 300 300).length ∧
    (runAdds (⟨[]⟩ : CacheState Nat) ([(0, 0), (1, 1)].take 2)).entries.length ≤
      MAX_CACHE_SIZE ∧
    (cacheAdd (⟨fullCacheEntries⟩ : CacheState Nat) 300 300).entries.length =
      MAX_CACHE_SIZE := by
  have hk : ((mapSet fullCacheEntries 300 300).map Prod.fst).Nodup := by
    rw [fullCacheEntries_mapSet_fst]; exact List.nodup_range _
  have ht : ((mapSet fullCacheEntries 300 300).map Prod.snd).Nodup := by
    rw [fullCacheEntries_mapSet_snd]; exact List.nodup_range _
  have hov : MAX_CACHE_SIZE < (mapSet fullCacheEntries 300 300).length := by
    have : (mapSet fullCacheEntries 300 300).length = 301 := by
      rw [fullCacheEntries_mapSet, List.length_append]
      unfold fullCacheEntries
      rw [List.length_map, List.length_range]
      rfl
    rw [this]
    unfold MAX_CACHE_SIZE
    omega
  refine ⟨hk, ht, hov, cacheManager_bounded_evicts_oldest.1 _ 2, ?_⟩
  exact (cacheManager_bounded_evicts_oldest.2 ⟨fullCacheEntries⟩ 300 300 hk ht hov).1

/-- `CONFIG.BATCH_SIZE` (imageProcessor.document_start.ts, line 200). -/
def BATCH_SIZE : Nat := 6

/-- `CONFIG.MAX_CONCURRENT` (imageProcessor.document_start.ts, line 216). -/
def MAX_CONCURRENT : Nat := 4

/-- Helper for the batch split: `cur` is the batch being filled (reversed),
`rem` the remaining capacity of the current batch. -/
def toBatchesAux {α : Type} (n : Nat) : List α → List α → Nat → List (List α)
  | [], cur, _ => if cur.isEmpty then [] else [cur.reverse]
  | x :: xs, cur, rem =>
      match rem with
      | 0 => cur.reverse :: toBatchesAux n xs [x] (n - 1)
      | r + 1 => toBatchesAux n xs (x :: cur) r

/-- The visible-element batching of `processAllMedia`
(imageProcessor.document_start.ts, lines 1200-1205): slices of `BATCH_SIZE`
consecutive candidates, each slice dispatched with `Promise.all`. -/
def toBatches {α : Type} (n : Nat) : List α → List (List α)
  | [] => []
  | x :: xs => toBatchesAux n xs [x] (n - 1)

/-- Number of candidates simultaneously carrying the `data-film-grade-processing`
marker while each visible batch is awaited: every `processImage` call of a
batch sets the marker synchronously before its first suspension point, and
all markers of a batch are still set when `Promise.all` is first awaited, so
one batch holds `batch.length` markers at once (markers are cleared, after a
50 ms safety delay, before the next batch starts past the 150 ms
`BATCH_DELAY`). -/
def batchInFlightCounts {α : Type} (visible : List α) : List Nat :=
  (toBatches BATCH_SIZE visible).map List.length

lemma toBatchesAux_length_le {α : Type} (n : Nat) (l : List α) :
    ∀ (cur : List α) (rem : Nat), cur.length + rem ≤ max n 1 →
    ∀ b ∈ toBatchesAux n l cur rem, b.length ≤ max n 1 := by
  induction l with
  | nil =>
      intro cur rem hinv b hb
      unfold toBatchesAux at hb
      by_cases hcur : cur.isEmpty
      · rw [if_pos hcur] at hb
        simp at hb
      · rw [if_neg hcur] at hb
        rcases List.mem_singleton.1 hb with rfl
        rw [List.length_reverse]
        omega
  | cons x xs ih =>
      intro cur rem hinv b hb
      unfold toBatchesAux at hb
      match rem with
      | 0 =>
          rcases List.mem_cons.1 hb with rfl | htail
          · rw [List.length_reverse]
            omega
          · refine ih [x] (n - 1) ?_ b htail
            rcases Nat.eq_zero_or_pos n with h0 | h1
            · subst h0; simp
            · rw [Nat.max_eq_left h1]
              simp only [List.length_singleton]
              omega
      | r + 1 =>
          refine ih (x :: cur) r ?_ b hb
          simp only [List.length_cons]
          omega

lemma toBatches_length_le {α : Type} (n : Nat) (l : List α) :
    ∀ b ∈ toBatches n l, b.length ≤ max n 1 := by
  cases l with
  | nil => intro b hb; simp [toBatches] at hb
  | cons x xs =>
      intro b hb
      unfold toBatches at hb
      refine toBatchesAux_length_le n xs [x] (n - 1) ?_ b hb
      rcases Nat.eq_zero_or_pos n with h0 | h1
      · subst h0; simp
      · rw [Nat.max_eq_left h1]
        simp only [List.length_singleton]
        omega

/-- C5 counterexample: with six visible candidates (one full batch), all six
simultaneously carry the in-flight marker, exceeding `MAX_CONCURRENT = 4`:
the claim that the number of `Processing` candidates never exceeds
`MAX_CONCURRENT` is false.  (`CONFIG.MAX_CONCURRENT` is never read by the
scheduler.) -/
theorem batch_exceeds_max_concurrent :
    batchInFlightCounts (List.range 6) = [6] ∧ MAX_CONCURRENT < 6 := by
  constructor
  · decide
  · decide

/-- C5 (amended): the only concurrency bound the visible-batch phase of
`processAllMedia` enforces is the batch size: at most `BATCH_SIZE = 6`
candidates (not `MAX_CONCURRENT = 4`) simultaneously carry the `Processing`
marker during the batched visible phase. -/
theorem batch_inflight_bounded_by_batch_size {α : Type} (visible : List α)
    (c : Nat) (hc : c ∈ batchInFlightCounts visible) : c ≤ BATCH_SIZE := by
  unfold batchInFlightCounts at hc
  obtain ⟨b, hb, rfl⟩ := List.mem_map.1 hc
  have h := toBatches_length_le BATCH_SIZE visible b hb
  unfold BATCH_SIZE at *
  omega

/-- Witness for C5 (amended) at a concrete candidate list. -/
theorem batch_inflight_bounded_by_batch_size_witness :
    (6 : Nat) ∈ batchInFlightCounts (List.range 6) ∧ (6 : Nat) ≤ BATCH_SIZE :=
  ⟨by decide, batch_inflight_bounded_by_batch_size (List.range 6) 6 (by decide)⟩

/-- The dataset string value `'true'`. -/
def trueChars : List Char := "true".toList

/-- The dataset string value `'false'`. -/
def falseChars : List Char := "false".toList

/-- The preset sentinel `'none'`. -/
def noneChars : List Char := "none".toList

/-- The `'data:image'` URL scheme test used by `processImage`. -/
def dataImagePat : List Char := "data:image".toList

/-- State of one image surface as the pipeline sees it.  String-valued DOM
state is modelled over code-point lists: `src` is the `src` property/attribute,
`originalSrcD`/`processedD`/`robustShadowD`/`lockedD`/`allowSetD` the
`data-film-grade-*` dataset entries (`none`/`false` = attribute absent),
`processingAttr` the `data-film-grade-processing` marker, `srcGuard` the
`Object.defineProperty` setter installed by `lockImageSrc`, `attrGuard` its
`setAttribute` override, and `overlayPresent`/`opacityZero` the robust shadow
wrapper sibling and the hidden original of the overlay strategy. -/
structure ImgElem where
  src : List Char
  originalSrcD : Option (List Char)
  processedD : Bool
  robustShadowD : Bool
  lockedD : Bool
  allowSetD : Option (List Char)
  processingAttr : Bool
  srcGuard : Bool
  attrGuard : Bool
  overlayPresent : Bool
  opacityZero : Bool
deriving DecidableEq, Repr

/-- `lockImageSrc` (imageProcessor.document_start.ts, lines 1634-1690): skip
if already locked, otherwise mark locked and install both the capability-gated
`src` property setter and the `setAttribute` override.  (The
`getOwnPropertyDescriptor` failure path cannot trigger for `src` on
`HTMLImageElement.prototype`.) -/
def lockImageSrc (e : ImgElem) : ImgElem :=
  if e.lockedD then e
  else { e with lockedD := true, srcGuard := true, attrGuard := true }

/-- A write to the element's `src` property: once the guard is installed the
setter silently ignores the write unless `data-film-grade-allow-set` is
`'true'`; without the guard the native setter runs.  Total — no error is ever
raised. -/
def setSrc (e : ImgElem) (v : List Char) : ImgElem :=
  if e.srcGuard then
    if e.allowSetD = some trueChars then { e with src := v } else e
  else { e with src := v }

/-- ASCII lowercasing of `name.toLowerCase()`. -/
def jsToLower (name : List Char) : List Char :=
  name.map fun c =>
    if 65 ≤ c.toNat ∧ c.toNat ≤ 90 then Char.ofNat (c.toNat + 32) else c

/-- A write through `element.setAttribute(name, v)`: the override installed by
`lockImageSrc` silently drops `src` writes unless authorized; otherwise the
native `setAttribute` runs (for `src` it updates the visible reference; other
attributes are outside the modelled state). -/
def setAttributeGuarded (e : ImgElem) (name v : List Char) : ImgElem :=
  if e.attrGuard ∧ jsToLower name = "src".toList ∧ e.allowSetD ≠ some trueChars then e
  else if jsToLower name = "src".toList then { e with src := v }
  else e

/-- C8: after `lockImageSrc` installs the write-guard, every write to the
element's visible reference that is not pipeline-authorized
(`data-film-grade-allow-set` ≠ `'true'`) leaves the reference unchanged and
raises no error (the setter and the `setAttribute` override are total and
return the state untouched), while every pipeline-authorized write takes
effect. -/
theorem lockImageSrc_write_guard (e : ImgElem) (v : List Char)
    (hnl : e.lockedD = false) :
    (∀ auth : Option (List Char), auth ≠ some trueChars →
      setSrc { lockImageSrc e with allowSetD := auth } v =
        { lockImageSrc e with allowSetD := auth }) ∧
    (setSrc { lockImageSrc e with allowSetD := some trueChars } v).src = v ∧
    (∀ auth : Option (List Char), auth ≠ some trueChars →
      setAttributeGuarded { lockImageSrc e with allowSetD := auth } ("src".toList) v =
        { lockImageSrc e with allowSetD := auth }) ∧
    (setAttributeGuarded { lockImageSrc e with allowSetD := some trueChars }
        ("src".toList) v).src = v := by
  have hlock : lockImageSrc e = { e with lockedD := true, srcGuard := true, attrGuard := true } := by
    unfold lockImageSrc
    rw [if_neg (by rw [hnl]; exact Bool.false_ne_true)]
  have hlower : jsToLower ("src".toList) = "src".toList := by decide
  refine ⟨?_, ?_, ?_, ?_⟩
  · intro auth hauth
    rw [hlock]
    unfold setSrc
    rw [if_pos rfl, if_neg (by simpa using hauth)]
  · rw [hlock]
    unfold setSrc
    rw [if_pos rfl, if_pos rfl]
  · intro auth hauth
    rw [hlock]
    unfold setAttributeGuarded
    rw [if_pos ⟨rfl, hlower, by simpa using hauth⟩]
  · rw [hlock]
    unfold setAttributeGuarded
    rw [if_neg (by intro h; exact h.2.2 rfl), if_pos hlower]

/-- Witness for C8 at a concrete unlocked element and concrete write value. -/
theorem lockImageSrc_write_guard_witness :
    (⟨"a".toList, none, false, false, false, none, false, false, false, false,
      false⟩ : ImgElem).lockedD = false ∧
    (setSrc { lockImageSrc ⟨"a".toList, none, false, false, false, none, false,
        false, false, false, false⟩ with allowSetD := some trueChars }
      ("b".toList)).src = "b".toList :=
  ⟨rfl,
   (lockImageSrc_write_guard
     ⟨"a".toList, none, false, false, false, none, false, false, false, false, false⟩
     ("b".toList) rfl).2.1⟩

/-- Step 1 of `revertElement` (lines 1086-1093): remove a robust-shadow
wrapper sibling, un-hide the original, drop the robust-shadow marker. -/
def revertStep1 (e : ImgElem) : ImgElem :=
  if e.overlayPresent then
    { e with overlayPresent := false, opacityZero := false, robustShadowD := false }
  else e

/-- Step 2 of `revertElement` (lines 1096-1102): restore `src` from the
recorded original through the authorized-write dance when present, non-empty
and different. -/
def revertStep2 (e : ImgElem) : ImgElem :=
  match e.originalSrcD with
  | some s =>
      if s ≠ [] ∧ e.src ≠ s then { e with src := s, allowSetD := some falseChars }
      else e
  | none => e

/-- `revertElement` (imageProcessor.document_start.ts, lines 1083-1143), image
branch: remove a robust-shadow wrapper and un-hide the original (step 1),
restore the `src` from the recorded original through the authorized-write
dance when it differs (step 2), restore the original `setAttribute`, drop the
`original-src`/`processed`/`locked` dataset entries, and clear the remaining
markers (step 5).  The `defineProperty` src guard itself is not uninstalled. -/
def revertElement (e : ImgElem) : ImgElem :=
  { revertStep2 (revertStep1 e) with
    attrGuard := false, originalSrcD := none, processedD := false,
    lockedD := false, processingAttr := false, robustShadowD := false }

/-- The page as the disable path sees it: the tracked image surfaces plus the
`processedUrlCache` contents (the result cache keyed by
source-and-settings fingerprints). -/
structure PageState where
  elems : List ImgElem
  cache : List (List Char)
deriving DecidableEq, Repr

/-- The `!isEnabled` branch of `processAllMedia`
(imageProcessor.document_start.ts, lines 1152-1162): revert every element
carrying a `data-film-grade-processed` or `data-film-grade-robust-shadow`
marker.  No operation on `processedUrlCache`/`cacheManager` appears on this
path (`cacheManager.clear` exists but has no caller), so the cache field is
untouched. -/
def processAllMediaDisabled (st : PageState) : PageState :=
  { elems := st.elems.map fun e =>
      if e.processedD || e.robustShadowD then revertElement e else e,
    cache := st.cache }

/-- A concrete page with one committed element and a non-empty result cache. -/
def committedPage : PageState :=
  { elems := [⟨"data:image-d".toList, some ("http-orig".toList), true, false, true,
      some falseChars, false, true, true, false, false⟩],
    cache := ["http-orig-preset1-0-0".toList] }

/-- C6 counterexample: toggling the pipeline off reverts the committed
element's reference to its recorded original, but the result cache is NOT
cleared — it still holds its entry after the toggle, contradicting the
claim's "and the result cache is cleared (empty after the toggle)". -/
theorem pipeline_disable_cache_counterexample :
    ((processAllMediaDisabled committedPage).elems.map fun e => e.src) =
      ["http-orig".toList] ∧
    (processAllMediaDisabled committedPage).cache ≠ [] := by
  constructor
  · decide
  · decide

lemma revertStep1_src (e : ImgElem) : (revertStep1 e).src = e.src := by
  unfold revertStep1; split <;> rfl

lemma revertStep1_originalSrcD (e : ImgElem) :
    (revertStep1 e).originalSrcD = e.originalSrcD := by
  unfold revertStep1; split <;> rfl

lemma revertStep1_overlay (e : ImgElem) : (revertStep1 e).overlayPresent = false ∨
    (revertStep1 e) = e ∧ e.overlayPresent = false := by
  unfold revertStep1
  by_cases hov : e.overlayPresent
  · left; rw [if_pos hov]
  · right
    rw [if_neg hov]
    exact ⟨rfl, by simpa using hov⟩

lemma revertStep2_src (e : ImgElem) (s : List Char)
    (hs : e.originalSrcD = some s) (hne : s ≠ []) : (revertStep2 e).src = s := by
  unfold revertStep2
  rw [hs]
  dsimp only
  by_cases hdiff : e.src ≠ s
  · rw [if_pos ⟨hne, hdiff⟩]
  · rw [if_neg (fun hc => hdiff hc.2)]
    push_neg at hdiff
    exact hdiff

lemma revertStep2_overlay (e : ImgElem) :
    (revertStep2 e).overlayPresent = e.overlayPresent := by
  unfold revertStep2
  cases e.originalSrcD with
  | none => rfl
  | some s => dsimp only; split <;> rfl

lemma revertElement_spec (e : ImgElem) :
    (∀ s, e.originalSrcD = some s → s ≠ [] → (revertElement e).src = s) ∧
    (revertElement e).processedD = false ∧
    (revertElement e).lockedD = false ∧
    (revertElement e).overlayPresent = false ∧
    (revertElement e).originalSrcD = none := by
  refine ⟨?_, rfl, rfl, ?_, rfl⟩
  · intro s hs hne
    show (revertStep2 (revertStep1 e)).src = s
    exact revertStep2_src _ s (by rw [revertStep1_originalSrcD, hs]) hne
  · show (revertStep2 (revertStep1 e)).overlayPresent = false
    rw [revertStep2_overlay]
    rcases revertStep1_overlay e with h | ⟨heq, hov⟩
    · exact h
    · rw [heq, hov]

/-- C6 (amended): toggling `pipelineEnabled` off reverts every committed or
overlay candidate's visible reference to its recorded original source locator
and clears its committed/locked/overlay markers, but the result cache is left
exactly as it was — nothing on the disable path clears it. -/
theorem pipeline_disable_reverts_not_clears (st : PageState) :
    (processAllMediaDisabled st).cache = st.cache ∧
    (∀ i (h1 : i < st.elems.length)
        (h2 : i < (processAllMediaDisabled st).elems.length),
      (((st.elems.get ⟨i, h1⟩).processedD = true ∨
        (st.elems.get ⟨i, h1⟩).robustShadowD = true) →
        (∀ s, (st.elems.get ⟨i, h1⟩).originalSrcD = some s → s ≠ [] →
          ((processAllMediaDisabled st).elems.get ⟨i, h2⟩).src = s) ∧
        ((processAllMediaDisabled st).elems.get ⟨i, h2⟩).processedD = false ∧
        ((processAllMediaDisabled st).elems.get ⟨i, h2⟩).lockedD = false ∧
        ((processAllMediaDisabled st).elems.get ⟨i, h2⟩).overlayPresent = false ∧
        ((processAllMediaDisabled st).elems.get ⟨i, h2⟩).originalSrcD = none)) := by
  refine ⟨rfl, ?_⟩
  intro i h1 h2 hmark
  have hget : (processAllMediaDisabled st).elems.get ⟨i, h2⟩ =
      (fun e => if e.processedD || e.robustShadowD then revertElement e else e)
        (st.elems.get ⟨i, h1⟩) := by
    show (st.elems.map _).get ⟨i, h2⟩ = _
    simp [List.get_eq_getElem, List.getElem_map]
  have hcond : ((st.elems.get ⟨i, h1⟩).processedD ||
      (st.elems.get ⟨i, h1⟩).robustShadowD) = true := by
    rcases hmark with h | h <;> simp only [List.get_eq_getElem] at h ⊢ <;> simp [h]
  rw [hget]
  simp only [hcond, if_true]
  exact revertElement_spec (st.elems.get ⟨i, h1⟩)

/-- Witness for C6 (amended) at the concrete committed page. -/
theorem pipeline_disable_reverts_not_clears_witness :
    (0 < committedPage.elems.length) ∧
    ((committedPage.elems.get ⟨0, by decide⟩).processedD = true) ∧
    (processAllMediaDisabled committedPage).cache = committedPage.cache :=
  ⟨by decide, by decide, (pipeline_disable_reverts_not_clears committedPage).1⟩

/-- The cache key `` `${originalSrc}-${preset}-${grain ? 1 : 0}-${vignette ? 1 : 0}` ``
(imageProcessor.document_start.ts, line 677). -/
def mkCacheKey (originalSrc preset : List Char) (grain vignette : Bool) : List Char :=
  originalSrc ++ ('-' :: preset) ++ ('-' :: (if grain then ['1'] else ['0'])) ++
    ('-' :: (if vignette then ['1'] else ['0']))

/-- Environment of one `processImage` run: the outcomes of its suspension
points and fallible steps.  `loadOk` — the image load resolves (false covers
`LoadError` and a load that never resolves within the processing timeout);
`ctxOk` — `getContext('2d')` returns a context; `pixelsOk` —
`getImageData` does not throw (false = `SurfaceError`, a tainted canvas);
`lutOk` — the whole LUT fetch/parse/apply chain succeeds; `useShadow` — the
`shouldUseShadowDOM` predicate combined with visibility; `dataUrl` — the
produced asset `canvas.toDataURL(...)`. -/
structure ProcEnv where
  loadOk : Bool
  width : Nat
  height : Nat
  ctxOk : Bool
  pixelsOk : Bool
  lutOk : Bool
  useShadow : Bool
  dataUrl : List Char
deriving DecidableEq, Repr

/-- The `finally` of `processImage`: clear the in-flight marker (after the
50 ms safety delay, which elapses before the next batch starts). -/
def clearAttr (e : ImgElem) : ImgElem :=
  { e with processingAttr := false }

/-- The `catch` of `processImage` (lines 818-830): restore the recorded
original source when present, non-empty and different from the current one. -/
def catchRevert (e : ImgElem) : ImgElem :=
  match e.originalSrcD with
  | some s =>
      if s ≠ [] ∧ e.src ≠ s then
        { e with src := s, allowSetD := some falseChars, processedD := false }
      else e
  | none => e

/-- Original-source resolution (lines 659-668): when the current `src` is a
data URL and a recorded original exists, use the recorded original. -/
def resolveOriginalSrc (e : ImgElem) : List Char :=
  if listStartsWith dataImagePat e.src = true ∧ e.originalSrcD.isSome = true
  then e.originalSrcD.getD e.src else e.src

/-- Force flag after original-source resolution (line 667): a data-URL source
with a recorded original forces reprocessing. -/
def resolveForce (e : ImgElem) (force0 : Bool) : Bool :=
  force0 || (listStartsWith dataImagePat e.src && e.originalSrcD.isSome)

/-- Direct-strategy commit (lines 780-806): lock the element, record the
original source, mark processed, authorize and perform the `src` write, then
de-authorize. -/
def commitDirect (e : ImgElem) (originalSrc dataUrl : List Char) : ImgElem :=
  clearAttr
    { lockImageSrc e with
      originalSrcD := some originalSrc
      processedD := true
      src := dataUrl
      allowSetD := some falseChars }

/-- Robust shadow-DOM commit (line 778 / `robustShadowReplace`): insert the
overlay wrapper and hide the original; the element's `src` is untouched. -/
def commitShadow (e : ImgElem) : ImgElem :=
  clearAttr { e with overlayPresent := true, opacityZero := true, robustShadowD := true }

/-- The no-effect branch (lines 807-816): if nothing was applied, restore the
recorded original when it differs, then always drop the recorded original. -/
def noopRevert (e : ImgElem) : ImgElem :=
  match e.originalSrcD with
  | some s =>
      if s ≠ [] ∧ e.src ≠ s then
        clearAttr
          { e with
            src := s
            allowSetD := some falseChars
            processedD := false
            originalSrcD := none }
      else clearAttr { e with originalSrcD := none }
  | none => clearAttr { e with originalSrcD := none }

/-- `Set.add` on the processed-URL cache (line 796). -/
def jsSetAdd (cache : List (List Char)) (k : List Char) : List (List Char) :=
  if k ∈ cache then cache else cache ++ [k]

/-- Body of `processImage` after the in-flight marker is set: the guard
cascade and commit/revert logic of lines 659-838.  `e` already carries the
marker; `originalSrc` and `force` are the resolved values. -/
def procBody (preset : List Char) (grain vignette force : Bool)
    (env : ProcEnv) (cache : List (List Char)) (e : ImgElem)
    (originalSrc : List Char) : ImgElem × List (List Char) :=
  if originalSrc = [] then (clearAttr e, cache)
  else if force = false ∧ mkCacheKey originalSrc preset grain vignette ∈ cache ∧
      e.processedD = true then (clearAttr e, cache)
  else if env.loadOk = false then (clearAttr (catchRevert e), cache)
  else if env.width = 0 ∨ env.height = 0 then (clearAttr e, cache)
  else if env.ctxOk = false then (clearAttr e, cache)
  else if env.pixelsOk = false then (clearAttr e, cache)
  else if (preset ≠ noneChars ∧ env.lutOk = true) ∨ grain = true ∨ vignette = true then
    if env.useShadow = true then (commitShadow e, cache)
    else (commitDirect e originalSrc env.dataUrl,
          jsSetAdd cache (mkCacheKey originalSrc preset grain vignette))
  else (noopRevert e, cache)

/-- `processImage` (imageProcessor.document_start.ts, lines 628-839) on a
non-Medium host, as a function of the element state, the run environment and
the processed-URL cache: early exits for a missing source, a locked
non-forced element, or an element already in flight; otherwise the marker is
set and the body runs. -/
def processImageModel (preset : List Char) (grain vignette force0 : Bool)
    (env : ProcEnv) (cache : List (List Char)) (e0 : ImgElem) :
    ImgElem × List (List Char) :=
  if e0.src = [] ∨ (e0.lockedD = true ∧ force0 = false) then (e0, cache)
  else if e0.processingAttr = true then (e0, cache)
  else
    procBody preset grain vignette (resolveForce e0 force0) env cache
      { e0 with processingAttr := true } (resolveOriginalSrc e0)

/-- The per-element loop of `processAllMedia` (lines 1172-1202): each batch
element is processed in turn inside its own `try`/`catch`, threading the
processed-URL cache; no element's outcome stops the others. -/
def runBatch (preset : List Char) (grain vignette force : Bool) :
    List (ImgElem × ProcEnv) → List (List Char) → List ImgElem × List (List Char)
  | [], cache => ([], cache)
  | (e, env) :: rest, cache =>
      let r := processImageModel preset grain vignette force env cache e
      let rr := runBatch preset grain vignette force rest r.2
      (r.1 :: rr.1, rr.2)

/-- The error outcomes of the claim: load failure (or hung load), blocked
pixel read, missing context, or a LUT failure with no other effect enabled. -/
def errOutcome (preset : List Char) (grain vignette : Bool) (env : ProcEnv) : Prop :=
  env.loadOk = false ∨ env.ctxOk = false ∨ env.pixelsOk = false ∨
    (preset ≠ noneChars ∧ env.lutOk = false ∧ grain = false ∧ vignette = false)

/-- A committed element being force-reprocessed: its visible reference is the
previously produced data URL and the true original is recorded. -/
def committedElem : ImgElem :=
  ⟨"data:image-old".toList, some ("http-orig".toList), true, false, true,
   some falseChars, false, true, true, false, false⟩

/-- Environment in which the pixel read is blocked (`SurfaceError`). -/
def blockedReadEnv : ProcEnv :=
  ⟨true, 10, 10, true, false, true, false, "data:image-new".toList⟩

/-- C7 counterexample: a candidate whose reprocessing raises a blocked pixel
read does NOT end in its original untransformed state — `processImage`
returns at the `getImageData` failure without restoring the recorded
original, leaving the previously transformed data URL in place, contrary to
the claim that the failing candidate's source is restored from the recorded
original. -/
theorem surface_error_keeps_transformed_counterexample :
    errOutcome ("p1".toList) false false blockedReadEnv ∧
    committedElem.originalSrcD = some ("http-orig".toList) ∧
    (processImageModel ("p1".toList) false false true blockedReadEnv []
        committedElem).1.src = "data:image-old".toList ∧
    "data:image-old".toList ≠ "http-orig".toList := by
  refine ⟨Or.inr (Or.inr (Or.inl rfl)), rfl, by decide, by decide⟩

lemma procBody_fresh_err (preset : List Char) (grain vignette : Bool)
    (force : Bool) (env : ProcEnv) (cache : List (List Char)) (e : ImgElem)
    (hnone : e.originalSrcD = none) (hsrc : e.src ≠ [])
    (herr : errOutcome preset grain vignette env) :
    (procBody preset grain vignette force env cache e e.src).1.src = e.src ∧
    (procBody preset grain vignette force env cache e e.src).1.processingAttr = false ∧
    (procBody preset grain vignette force env cache e e.src).2 = cache := by
  unfold procBody
  rw [if_neg hsrc]
  by_cases hskip : force = false ∧ mkCacheKey e.src preset grain vignette ∈ cache ∧
      e.processedD = true
  · rw [if_pos hskip]
    exact ⟨rfl, rfl, rfl⟩
  · rw [if_neg hskip]
    by_cases hload : env.loadOk = false
    · rw [if_pos hload]
      have hcr : catchRevert e = e := by
        unfold catchRevert
        rw [hnone]
      rw [hcr]
      exact ⟨rfl, rfl, rfl⟩
    · rw [if_neg hload]
      by_cases hdims : env.width = 0 ∨ env.height = 0
      · rw [if_pos hdims]
        exact ⟨rfl, rfl, rfl⟩
      · rw [if_neg hdims]
        by_cases hctx : env.ctxOk = false
        · rw [if_pos hctx]
          exact ⟨rfl, rfl, rfl⟩
        · rw [if_neg hctx]
          by_cases hpix : env.pixelsOk = false
          · rw [if_pos hpix]
            exact ⟨rfl, rfl, rfl⟩
          · rw [if_neg hpix]
            obtain ⟨hpne, hlut, hg, hv⟩ : preset ≠ noneChars ∧ env.lutOk = false ∧
                grain = false ∧ vignette = false := by
              rcases herr with h | h | h | h
              · exact absurd h hload
              · exact absurd h hctx
              · exact absurd h hpix
              · exact h
            rw [if_neg ?hproc]
            case hproc =>
              rintro (⟨_, hc⟩ | hc | hc)
              · rw [hlut] at hc; exact Bool.false_ne_true hc
              · rw [hg] at hc; exact Bool.false_ne_true hc
              · rw [hv] at hc; exact Bool.false_ne_true hc
            have hnr : noopRevert e = clearAttr { e with originalSrcD := none } := by
              unfold noopRevert
              rw [hnone]
            rw [hnr]
            exact ⟨rfl, rfl, rfl⟩

/-- C7 (amended): the four error classes are isolated to the candidate that
raised them — the batch loop yields exactly one outcome per candidate, each
computed by `processImage` alone on that candidate — and a failing candidate
is never left visually broken: a first-time candidate (no recorded original)
keeps its source and in-flight marker cleared, with the cache untouched, and
a reprocessed committed candidate whose load fails has its source restored
from the recorded original.  (A blocked pixel read during reprocessing keeps
the previous committed output instead — see the counterexample.) -/
theorem processImage_error_isolation (preset : List Char) (grain vignette force : Bool) :
    (∀ (batch : List (ImgElem × ProcEnv)) (cache : List (List Char)),
      (runBatch preset grain vignette force batch cache).1.length = batch.length) ∧
    (∀ (batch : List (ImgElem × ProcEnv)) (cache : List (List Char))
        (i : Nat) (h1 : i < batch.length)
        (h2 : i < (runBatch preset grain vignette force batch cache).1.length),
      ∃ c, (runBatch preset grain vignette force batch cache).1.get ⟨i, h2⟩ =
        (processImageModel preset grain vignette force (batch.get ⟨i, h1⟩).2 c
          (batch.get ⟨i, h1⟩).1).1) ∧
    (∀ (e : ImgElem) (env : ProcEnv) (cache : List (List Char)),
      e.originalSrcD = none → e.processingAttr = false →
      errOutcome preset grain vignette env →
      (processImageModel preset grain vignette force env cache e).1.src = e.src ∧
      (processImageModel preset grain vignette force env cache e).1.processingAttr = false ∧
      (processImageModel preset grain vignette force env cache e).2 = cache) ∧
    (∀ (e : ImgElem) (env : ProcEnv) (cache : List (List Char)) (s : List Char),
      e.originalSrcD = some s → s ≠ [] → e.src ≠ [] → e.processingAttr = false →
      env.loadOk = false →
      (processImageModel preset grain vignette true env cache e).1.src = s ∧
      (processImageModel preset grain vignette true env cache e).1.processingAttr = false) := by
  refine ⟨?_, ?_, ?_, ?_⟩
  · intro batch
    induction batch with
    | nil => intro cache; rfl
    | cons p rest ih =>
        intro cache
        obtain ⟨e, env⟩ := p
        simp only [runBatch, List.length_cons]
        rw [ih]
  · intro batch
    induction batch with
    | nil => intro cache i h1 h2; exact absurd h1 (by simp)
    | cons p rest ih =>
        intro cache i h1 h2
        obtain ⟨e, env⟩ := p
        match i with
        | 0 => exact ⟨cache, rfl⟩
        | Nat.succ j =>
            have hj1 : j < rest.length := by simpa using h1
            have hj2 : j < (runBatch preset grain vignette force rest
                (processImageModel preset grain vignette force env cache e).2).1.length := by
              simpa [runBatch] using h2
            obtain ⟨c, hc⟩ := ih (processImageModel preset grain vignette force env cache e).2
              j hj1 hj2
            exact ⟨c, hc⟩
  · intro e env cache hnone hattr herr
    unfold processImageModel
    by_cases h1 : e.src = [] ∨ (e.lockedD = true ∧ force = false)
    · rw [if_pos h1]
      exact ⟨rfl, hattr, rfl⟩
    · rw [if_neg h1]
      rw [if_neg (by rw [hattr]; exact Bool.false_ne_true)]
      have hsrcne : e.src ≠ [] := fun hc => h1 (Or.inl hc)
      have hres : resolveOriginalSrc e = e.src := by
        unfold resolveOriginalSrc
        rw [if_neg]
        rintro ⟨_, hsm⟩
        rw [hnone] at hsm
        exact Bool.false_ne_true hsm
      rw [hres]
      have hmark : ({ e with processingAttr := true } : ImgElem).originalSrcD = none := hnone
      have hsrcm : ({ e with processingAttr := true } : ImgElem).src = e.src := rfl
      have h := procBody_fresh_err preset grain vignette (resolveForce e force) env cache
        { e with processingAttr := true } hmark (by rw [hsrcm]; exact hsrcne) herr
      rw [hsrcm] at h
      exact h
  · intro e env cache s hs hsne hsrcne hattr hload
    unfold processImageModel
    rw [if_neg ?hearly]
    case hearly =>
      rintro (hc | ⟨_, hc⟩)
      · exact hsrcne hc
      · exact Bool.false_ne_true hc.symm
    rw [if_neg (by rw [hattr]; exact Bool.false_ne_true)]
    have hforce : resolveForce e true = true := by
      unfold resolveForce
      rfl
    have horig : resolveOriginalSrc e ≠ [] := by
      unfold resolveOriginalSrc
      by_cases hc : listStartsWith dataImagePat e.src = true ∧ e.originalSrcD.isSome = true
      · rw [if_pos hc, hs]
        exact hsne
      · rw [if_neg hc]
        exact hsrcne
    unfold procBody
    rw [if_neg horig]
    rw [if_neg ?hskip]
    case hskip =>
      rintro ⟨hc, _⟩
      rw [hforce] at hc
      exact Bool.false_ne_true hc.symm
    rw [if_pos hload]
    have hcr : (catchRevert { e with processingAttr := true }).src = s := by
      unfold catchRevert
      have : ({ e with processingAttr := true } : ImgElem).originalSrcD = some s := hs
      rw [this]
      dsimp only
      by_cases hdiff : e.src ≠ s
      · rw [if_pos ⟨hsne, hdiff⟩]
      · rw [if_neg (fun hc => hdiff hc.2)]
        push_neg at hdiff
        exact hdiff
    exact ⟨hcr, rfl⟩

/-- A first-time candidate: no recorded original, unlocked, idle. -/
def freshElem : ImgElem :=
  ⟨"http-a".toList, none, false, false, false, none, false, false, false, false, false⟩

/-- Environment in which the image load fails (`LoadError`). -/
def loadFailEnv : ProcEnv :=
  ⟨false, 10, 10, true, true, true, false, "data:image-new".toList⟩

/-- Witness for C7 (amended): on a concrete load failure, a concrete fresh
candidate keeps its source unchanged and a concrete committed candidate being
reprocessed is restored to its recorded original. -/
theorem processImage_error_isolation_witness :
    freshElem.originalSrcD = none ∧
    errOutcome ("p1".toList) false false loadFailEnv ∧
    (processImageModel ("p1".toList) false false false loadFailEnv [] freshElem).1.src =
      freshElem.src ∧
    (processImageModel ("p1".toList) false false true loadFailEnv []
      committedElem).1.src = "http-orig".toList :=
  ⟨rfl, Or.inl rfl,
   ((processImage_error_isolation ("p1".toList) false false false).2.2.1 freshElem
      loadFailEnv [] rfl rfl (Or.inl rfl)).1,
   ((processImage_error_isolation ("p1".toList) false false true).2.2.2 committedElem
      loadFailEnv [] ("http-orig".toList) rfl (by decide) (by decide) rfl rfl).1⟩
